import Mathlib

set_option maxRecDepth 100000

/-!
Verification development for the image gallery compressor
(`compress_gallery.py`).  The Python source is shallowly embedded:

* byte buffers (`bytes`) become `List Nat`;
* the PIL save call `work.save(buf, **save_kwargs)` is abstracted by an
  arbitrary total function `enc : Nat → Nat → SaveKwargs → Bytes` taking the
  working image's width, height and the keyword arguments and producing the
  encoded bytes (the pixel content of the base image is fixed for one call of
  the search, so the dimensions and kwargs are the only varying inputs);
* the floating-point scale `0.85 ** k` is modelled exactly as the rational
  `(17/20) ^ k`; Python's `int(...)` on the nonnegative product is the floor;
* the `while True:` loop is modelled with explicit fuel; termination is then
  a theorem (a computable bound on the fuel suffices);
* EXIF metadata (`Image.Exif`) becomes an association list of tag/value
  pairs; `exif.tobytes()` is modelled as returning the map itself, so
  statements about fields of the emitted metadata are statements about the
  map; Python truthiness of `bytes | None` and of the EXIF mapping
  (`None`/empty ↦ falsy) is modelled explicitly.
-/

namespace CompressGallery

/-- Encoded byte buffers (`bytes` in Python). -/
abbrev Bytes := List Nat

/-- The keyword arguments passed to one `work.save(buf, **save_kwargs)` call.
The constant fields (`optimize=True, progressive=True, subsampling="4:2:0"`
for JPEG, `method=6` for WebP) are folded into `fmt`; the fields that vary or
matter to the claims are kept explicitly. -/
structure SaveKwargs where
  fmt : String
  quality : Nat
  exif : Option Bytes
  icc_profile : Option Bytes
deriving DecidableEq

/-- Python truthiness filter for a `bytes | None` value: the keyword is set
only when the value is non-`None` and non-empty (`if exif_bytes:` /
`if icc:` in the source). -/
def pyTruthy (b : Option Bytes) : Option Bytes :=
  match b with
  | some bs => if bs.isEmpty then none else some bs
  | none => none

/-- Kwargs built by `save_jpeg_under_limit` for quality `q`
(source line 89-91). -/
def jpegKwargs (exifBytes icc : Option Bytes) (q : Nat) : SaveKwargs :=
  { fmt := "JPEG", quality := q, exif := pyTruthy exifBytes,
    icc_profile := pyTruthy icc }

/-- Kwargs built by `save_webp_under_limit` for quality `q`
(source line 127-129). -/
def webpKwargs (exifBytes icc : Option Bytes) (q : Nat) : SaveKwargs :=
  { fmt := "WEBP", quality := q, exif := pyTruthy exifBytes,
    icc_profile := pyTruthy icc }

/-- Default quality ladder of `save_jpeg_under_limit` (source line 74). -/
def jpegQualitySteps : List Nat := [92, 85, 80, 72, 65, 60, 50]

/-- Default quality ladder of `save_webp_under_limit` (source line 107). -/
def webpQualitySteps : List Nat := [95, 90, 85, 80, 75, 70, 65, 60]

/-- The cumulative scale after `k` executions of `scale *= 0.85`,
modelled exactly over ℚ. -/
def scaleQ (k : Nat) : ℚ := (17 / 20 : ℚ) ^ k

/-- One scaled dimension: `max(1, int(d * scale))` (source lines 85 and 123);
Python's `int` truncates, which on the nonnegative value `d * (17/20)^k` is
the floor, i.e. the natural-number division `d * 17^k / 20^k`
(`scaledDim_eq_floor` below proves the two agree). -/
def scaledDim (d k : Nat) : Nat := max 1 (d * 17 ^ k / 20 ^ k)

/-- Dimensions of the working image at scale index `k`:
`base` itself when `scale == 1.0`, else the resized dimensions
(source lines 85 and 123). -/
def workDims (w h k : Nat) : Nat × Nat :=
  if k = 0 then (w, h) else (scaledDim w k, scaledDim h k)

/-- `min(work.size)`: the shorter side of a (width, height) pair. -/
def minSide2 (p : Nat × Nat) : Nat := min p.1 p.2

/-- The inner `for q in quality_steps:` loop (source lines 87-96 / 125-134):
encodes at each quality in order, returning
`(early returned data?, last_data after the loop)`.  The first component is
`some data` exactly when some quality produced `len(data) <= limit_bytes`
and the loop returned early with that first such `data`. -/
def runLadder (enc : Nat → Nat → SaveKwargs → Bytes) (kwOf : Nat → SaveKwargs)
    (limit dw dh : Nat) : List Nat → Option Bytes → Option Bytes × Option Bytes
  | [], last => (none, last)
  | q :: qs, _last =>
    let data := enc dw dh (kwOf q)
    if data.length ≤ limit then (some data, some data)
    else runLadder enc kwOf limit dw dh qs (some data)

/-- The outer `while True:` loop of `save_jpeg_under_limit` /
`save_webp_under_limit` (source lines 84-100 / 122-138), with explicit fuel.
Arguments `k` and `last` are the current scale index and the running
`last_data`; the result is `none` when the fuel runs out, otherwise
`some (K, r)` where `K` is the scale index at which the loop returned and
`r` the returned value (`some bytes`, or `none` for Python's
`None`-initialised `last_data` when the ladder is empty). -/
def searchFuel (enc : Nat → Nat → SaveKwargs → Bytes) (kwOf : Nat → SaveKwargs)
    (limit minSide w h : Nat) (qualities : List Nat) :
    Nat → Nat → Option Bytes → Option (Nat × Option Bytes)
  | 0, _, _ => none
  | fuel + 1, k, last =>
    let dims := workDims w h k
    match runLadder enc kwOf limit dims.1 dims.2 qualities last with
    | (some data, _) => some (k, some data)
    | (none, last2) =>
      if minSide2 dims ≤ minSide then some (k, last2)
      else searchFuel enc kwOf limit minSide w h qualities fuel (k + 1) last2

/-- `save_jpeg_under_limit` (source lines 69-100).  The mode conversion on
lines 77-78 does not change the dimensions, so `w h` are the base image's
dimensions. -/
def save_jpeg_under_limit (enc : Nat → Nat → SaveKwargs → Bytes)
    (limit : Nat) (exifBytes icc : Option Bytes) (minSide : Nat)
    (qualities : List Nat) (w h fuel : Nat) : Option (Nat × Option Bytes) :=
  searchFuel enc (jpegKwargs exifBytes icc) limit minSide w h qualities fuel 0 none

/-- `save_webp_under_limit` (source lines 102-138).  The alpha detection and
mode conversion on lines 110-116 do not change the dimensions. -/
def save_webp_under_limit (enc : Nat → Nat → SaveKwargs → Bytes)
    (limit : Nat) (exifBytes icc : Option Bytes) (minSide : Nat)
    (qualities : List Nat) (w h fuel : Nat) : Option (Nat × Option Bytes) :=
  searchFuel enc (webpKwargs exifBytes icc) limit minSide w h qualities fuel 0 none

/-- The spec's formula for a scaled dimension, following the spec's words
verbatim: `dimensions = max(1, round(original_dim * scale))` with
round-to-nearest rounding.  Declared only to be compared with the source's
`scaledDim`. -/
def specRoundedDim (d k : Nat) : Nat := max 1 (Int.toNat (round ((d : ℚ) * scaleQ k)))

/-- Decoded image: pixel dimensions plus an opaque pixel-content id.  Color
mode is irrelevant to the claims settled here (it never changes dimensions). -/
structure Img where
  width : Nat
  height : Nat
  content : Nat
deriving DecidableEq

/-- EXIF metadata as a tag → value association list (`Image.Exif` mapping).
`exif.tobytes()` is modelled as the map itself. -/
abbrev ExifMap := List (Nat × Nat)

/-- `exif[274] = 1`-style update: replace the value at `tag`, or append the
pair if absent. -/
def exifSet : ExifMap → Nat → Nat → ExifMap
  | [], tag, v => [(tag, v)]
  | (t, x) :: rest, tag, v =>
    if t = tag then (tag, v) :: rest else (t, x) :: exifSet rest tag v

/-- `ori = exif.get(274, 1)` guarded by `if exif and len(exif):`
(source lines 38-40); `exifRes = none` models `getexif()` having raised. -/
def origTag (exifRes : Option ExifMap) : Nat :=
  match exifRes with
  | some e => if e.isEmpty then 1 else (e.lookup 274).getD 1
  | none => 1

/-- The `need_rotate` computation of the auto strategy (source lines 57-61). -/
def autoNeedRotate (ori w h : Nat) : Bool :=
  if ori = 3 ∨ ori = 4 then true
  else if ori = 5 ∨ ori = 6 ∨ ori = 7 ∨ ori = 8 then decide (h ≤ w)
  else false

/-- `normalize_orientation` (source lines 28-67).  `transpose img t` abstracts
`ImageOps.exif_transpose(img)` applied to an image whose orientation tag is
`t`; `exifRes` is the outcome of the guarded `img.getexif()` call (`none`
models the swallowed exception).  Returns the (possibly rotated) image and
the metadata to embed (`exif.tobytes()` with Orientation(274) set to 1), or
`none` when the EXIF mapping is absent or empty (Python falsy). -/
def normalize_orientation (transpose : Img → Nat → Img) (img : Img)
    (exifRes : Option ExifMap) (strategy : String) : Img × Option ExifMap :=
  let ori := origTag exifRes
  if strategy = "strip" then
    match exifRes with
    | some e => if e.isEmpty then (img, none) else (img, some (exifSet e 274 1))
    | none => (img, none)
  else if strategy = "force" then
    let base := transpose img ori
    match exifRes with
    | some e => if e.isEmpty then (base, none) else (base, some (exifSet e 274 1))
    | none => (base, none)
  else
    let base := if autoNeedRotate ori img.width img.height then transpose img ori else img
    match exifRes with
    | some e => if e.isEmpty then (base, none) else (base, some (exifSet e 274 1))
    | none => (base, none)

/-- The non-PNG image extensions dispatched to the JPEG path
(source line 160). -/
def jpegSourceExts : List String :=
  [".jpg", ".jpeg", ".webp", ".tif", ".tiff", ".bmp", ".heic", ".heif"]

/-- The effectful environment observed by one `compress_one` call: each
fallible step of the body (stat, verbatim copy, decode, the two
size-constrained encoders — whose single-encode failures propagate — and the
output write) is modelled as an `Except` outcome, together with the input
file's lower-cased extension and raw bytes. -/
structure PipelineWorld where
  statRes : Except String Nat
  copyRes : Except String Unit
  openRes : Except String Img
  webpRes : Except String Bytes
  jpegRes : Except String Bytes
  writeRes : Except String Unit
  ext : String
  origBytes : Bytes

/-- What `compress_one` did to the output path: `copyVerbatim` is
`shutil.copy2` of the source file (byte-identical, original extension kept),
`writeBytes e d` writes buffer `d` at the path with suffix replaced by `e`. -/
inductive FileAction where
  | copyVerbatim : FileAction
  | writeBytes : String → Bytes → FileAction
deriving DecidableEq

/-- The bytes and extension that end up on disk for a given action. -/
def outputOf (w : PipelineWorld) : FileAction → Bytes × String
  | FileAction.copyVerbatim => (w.origBytes, w.ext)
  | FileAction.writeBytes e d => (d, e)

/-- The `try:` body of `compress_one` (source lines 141-174): the fast-path
size check and verbatim copy, then decode, then dispatch on the extension to
the WebP or JPEG encoder and the output write.  Any step's exception
short-circuits as `Except.error`.  (`normalize_orientation` itself is total
— its internal `getexif` failure is swallowed — and the encoder searches are
abstracted by `webpRes`/`jpegRes`, which also carry their possible
single-encode failures.) -/
def compress_one_body (limit : Nat) (w : PipelineWorld) :
    Except String (Bool × String × FileAction) :=
  match w.statRes with
  | Except.error e => Except.error e
  | Except.ok size =>
    if size ≤ limit then
      match w.copyRes with
      | Except.error e => Except.error e
      | Except.ok _ => Except.ok (true, "SKIP (<= limit)", FileAction.copyVerbatim)
    else
      match w.openRes with
      | Except.error e => Except.error e
      | Except.ok _im =>
        if w.ext = ".png" then
          match w.webpRes with
          | Except.error e => Except.error e
          | Except.ok data =>
            match w.writeRes with
            | Except.error e => Except.error e
            | Except.ok _ =>
              Except.ok (true, "PNG->WebP->OK", FileAction.writeBytes ".webp" data)
        else if w.ext ∈ jpegSourceExts then
          match w.jpegRes with
          | Except.error e => Except.error e
          | Except.ok data =>
            match w.writeRes with
            | Except.error e => Except.error e
            | Except.ok _ =>
              Except.ok (true, "JPEG->OK", FileAction.writeBytes ".jpg" data)
        else
          match w.jpegRes with
          | Except.error e => Except.error e
          | Except.ok data =>
            match w.writeRes with
            | Except.error e => Except.error e
            | Except.ok _ =>
              Except.ok (true, "OTHER->JPEG->OK", FileAction.writeBytes ".jpg" data)

/-- `compress_one` (source lines 140-177): the body wrapped in
`try/except Exception`, always returning a `(success, message)` pair — the
third component records the completed output action (`none` on failure). -/
def compress_one (limit : Nat) (w : PipelineWorld) : Bool × String × Option FileAction :=
  match compress_one_body limit w with
  | Except.ok r => (r.1, r.2.1, some r.2.2)
  | Except.error e => (false, "FAIL: " ++ e, none)

/-- Concrete single-shot encoder for witnesses: the buffer `[dw]`, recording
the working width (length 1, so it fits any positive limit and no limit 0). -/
def tagEnc (dw _dh : Nat) (_kw : SaveKwargs) : Bytes := [dw]

/-- Concrete single-shot encoder for witnesses whose output length equals the
working width. -/
def widthEnc (dw _dh : Nat) (_kw : SaveKwargs) : Bytes := List.replicate dw 0

/-- Concrete single-shot encoder for witnesses whose output length equals the
requested quality. -/
def qualEnc (_dw _dh : Nat) (kw : SaveKwargs) : Bytes := List.replicate kw.quality 0

/-- Concrete no-op transpose for witnesses. -/
def idTranspose (img : Img) (_t : Nat) : Img := img

/-- Concrete image for witnesses. -/
def cImg : Img := { width := 100, height := 50, content := 0 }

/-- Concrete all-successful pipeline environment for witnesses. -/
def cWorld : PipelineWorld :=
  { statRes := Except.ok 100, copyRes := Except.ok (), openRes := Except.ok cImg,
    webpRes := Except.ok [9], jpegRes := Except.ok [9], writeRes := Except.ok (),
    ext := ".png", origBytes := [1, 2, 3] }

/-! Helper lemmas. -/

/-- The natural-number division used by `scaledDim` is exactly the floor of
the rational product `d * (17/20)^k`, i.e. Python's `int(d * 0.85**k)` with
the scale taken exactly. -/
lemma scaledDim_eq_floor (d k : Nat) :
    scaledDim d k = max 1 (Nat.floor ((d : ℚ) * scaleQ k)) := by
  unfold scaledDim scaleQ
  congr 1
  have hcast : (d : ℚ) * (17 / 20 : ℚ) ^ k = ((d * 17 ^ k : Nat) : ℚ) / ((20 ^ k : Nat) : ℚ) := by
    rw [div_pow]
    push_cast
    ring
  rw [hcast, Nat.floor_div_eq_div]

/-- If the quality ladder returned early, the returned buffer fits the
limit. -/
lemma runLadder_fst_length (enc : Nat → Nat → SaveKwargs → Bytes)
    (kwOf : Nat → SaveKwargs) (limit dw dh : Nat) :
    ∀ (qs : List Nat) (last : Option Bytes) (d : Bytes),
      (runLadder enc kwOf limit dw dh qs last).1 = some d → d.length ≤ limit := by
  intro qs
  induction qs with
  | nil => intro last d h; simp [runLadder] at h
  | cons q qs ih =>
    intro last d h
    by_cases hfit : (enc dw dh (kwOf q)).length ≤ limit
    · simp [runLadder, hfit] at h
      exact h ▸ hfit
    · simp [runLadder, hfit] at h
      exact ih _ _ h

/-- If the quality ladder did not return early, every quality on it encoded
above the limit. -/
lemma runLadder_fst_none (enc : Nat → Nat → SaveKwargs → Bytes)
    (kwOf : Nat → SaveKwargs) (limit dw dh : Nat) :
    ∀ (qs : List Nat) (last : Option Bytes),
      (runLadder enc kwOf limit dw dh qs last).1 = none →
      ∀ q ∈ qs, limit < (enc dw dh (kwOf q)).length := by
  intro qs
  induction qs with
  | nil => intro last h q hq; simp at hq
  | cons q qs ih =>
    intro last h q2 hq2
    by_cases hfit : (enc dw dh (kwOf q)).length ≤ limit
    · simp [runLadder, hfit] at h
    · simp only [runLadder] at h
      rw [if_neg hfit] at h
      rcases List.mem_cons.mp hq2 with rfl | hmem
      · exact Nat.lt_of_not_le hfit
      · exact ih _ h q2 hmem

/-- After a non-empty ladder runs, `last_data` is set (never the
`None`-initialised value). -/
lemma runLadder_snd_isSome (enc : Nat → Nat → SaveKwargs → Bytes)
    (kwOf : Nat → SaveKwargs) (limit dw dh : Nat) :
    ∀ (qs : List Nat) (last : Option Bytes), qs ≠ [] →
      ∃ b, (runLadder enc kwOf limit dw dh qs last).2 = some b := by
  intro qs
  induction qs with
  | nil => intro last h; exact absurd rfl h
  | cons q qs ih =>
    intro last _
    by_cases hfit : (enc dw dh (kwOf q)).length ≤ limit
    · exact ⟨enc dw dh (kwOf q), by simp [runLadder, hfit]⟩
    · by_cases hqs : qs = []
      · subst hqs
        exact ⟨enc dw dh (kwOf q), by simp [runLadder, hfit]⟩
      · obtain ⟨b, hb⟩ := ih (some (enc dw dh (kwOf q))) hqs
        refine ⟨b, ?_⟩
        simp only [runLadder]
        rw [if_neg hfit]
        exact hb

/-- On a strictly descending ladder, the early-returned buffer is the
encoding at the first — hence the highest — quality that fits the limit. -/
lemma runLadder_first_fit (enc : Nat → Nat → SaveKwargs → Bytes)
    (kwOf : Nat → SaveKwargs) (limit dw dh : Nat) :
    ∀ (qs : List Nat) (last : Option Bytes) (d : Bytes),
      List.Pairwise (fun a b => b < a) qs →
      (runLadder enc kwOf limit dw dh qs last).1 = some d →
      ∃ q, q ∈ qs ∧ d = enc dw dh (kwOf q) ∧ d.length ≤ limit ∧
        ∀ q2, q2 ∈ qs → (enc dw dh (kwOf q2)).length ≤ limit → q2 ≤ q := by
  intro qs
  induction qs with
  | nil => intro last d _ h; simp [runLadder] at h
  | cons q qs ih =>
    intro last d hp h
    by_cases hfit : (enc dw dh (kwOf q)).length ≤ limit
    · simp [runLadder, hfit] at h
      refine ⟨q, List.mem_cons_self q qs, h.symm, h ▸ hfit, ?_⟩
      intro q2 hq2 _
      rcases List.mem_cons.mp hq2 with rfl | hmem
      · exact le_refl q2
      · exact le_of_lt ((List.pairwise_cons.mp hp).1 q2 hmem)
    · simp only [runLadder] at h
      rw [if_neg hfit] at h
      obtain ⟨q0, hq0mem, hq0d, hq0len, hq0max⟩ :=
        ih (some (enc dw dh (kwOf q))) d (List.pairwise_cons.mp hp).2 h
      refine ⟨q0, List.mem_cons_of_mem _ hq0mem, hq0d, hq0len, ?_⟩
      intro q2 hq2 hfit2
      rcases List.mem_cons.mp hq2 with rfl | hmem
      · exact absurd hfit2 hfit
      · exact hq0max q2 hmem hfit2

/-- Looking up the tag just set by `exifSet` yields the new value. -/
lemma lookup_exifSet (e : ExifMap) (tag v : Nat) :
    List.lookup tag (exifSet e tag v) = some v := by
  induction e with
  | nil => simp [exifSet, List.lookup]
  | cons p rest ih =>
    obtain ⟨t, x⟩ := p
    by_cases ht : t = tag
    · subst ht
      simp [exifSet, List.lookup]
    · have hbeq : (tag == t) = false := by
        simp [beq_eq_false_iff_ne]
        intro hh
        exact ht hh.symm
      simp [exifSet, ht, List.lookup, hbeq, ih]

/-- If the floor iteration `K` (the first scale index whose shorter side is
at or below `min_side`) encodes within the limit at the ladder's lowest
quality, the search returns a buffer within the limit. -/
lemma searchFuel_budget_aux (enc : Nat → Nat → SaveKwargs → Bytes)
    (kwOf : Nat → SaveKwargs) (limit minSide w h : Nat) (qualities : List Nat)
    (K : Nat) (hq : qualities ≠ [])
    (hfit : (enc (workDims w h K).1 (workDims w h K).2
      (kwOf (qualities.getLast hq))).length ≤ limit) :
    ∀ fuel k last, k ≤ K → K < k + fuel →
      (∀ j, k ≤ j → j < K → minSide < minSide2 (workDims w h j)) →
      ∃ K2 b, searchFuel enc kwOf limit minSide w h qualities fuel k last
          = some (K2, some b) ∧ b.length ≤ limit := by
  intro fuel
  induction fuel with
  | zero => intro k last hk hlt _; omega
  | succ fuel ih =>
    intro k last hk hlt hbetween
    rcases hrl : runLadder enc kwOf limit (workDims w h k).1 (workDims w h k).2
        qualities last with ⟨fst, snd⟩
    cases fst with
    | some data =>
      refine ⟨k, data, ?_, ?_⟩
      · simp [searchFuel, hrl]
      · exact runLadder_fst_length enc kwOf limit (workDims w h k).1
          (workDims w h k).2 qualities last data (by rw [hrl])
    | none =>
      have hall := runLadder_fst_none enc kwOf limit (workDims w h k).1
        (workDims w h k).2 qualities last (by rw [hrl])
      have hkK : k < K := by
        rcases Nat.lt_or_ge k K with hlt2 | hge
        · exact hlt2
        · exfalso
          have hkeq : k = K := Nat.le_antisymm hk hge
          subst hkeq
          have hcontra := hall (qualities.getLast hq) (List.getLast_mem hq)
          omega
      have hfc : ¬ minSide2 (workDims w h k) ≤ minSide :=
        Nat.not_le.mpr (hbetween k (le_refl k) hkK)
      have hstep : searchFuel enc kwOf limit minSide w h qualities (fuel + 1) k last
          = searchFuel enc kwOf limit minSide w h qualities fuel (k + 1) snd := by
        simp [searchFuel, hrl, hfc]
      rw [hstep]
      exact ih (k + 1) snd hkK (by omega) (fun j hj1 hj2 => hbetween j (by omega) hj2)

/-- If some scale index within the fuel budget reaches the `min_side` floor
and the ladder is non-empty, the search returns actual bytes. -/
lemma searchFuel_total_aux (enc : Nat → Nat → SaveKwargs → Bytes)
    (kwOf : Nat → SaveKwargs) (limit minSide w h : Nat) (qualities : List Nat)
    (hq : qualities ≠ []) :
    ∀ fuel k last, (∃ j, k ≤ j ∧ j < k + fuel ∧ minSide2 (workDims w h j) ≤ minSide) →
      ∃ K b, searchFuel enc kwOf limit minSide w h qualities fuel k last
          = some (K, some b) ∧ K < k + fuel := by
  intro fuel
  induction fuel with
  | zero =>
    intro k last hj
    obtain ⟨j, h1, h2, _⟩ := hj
    omega
  | succ fuel ih =>
    intro k last hj
    obtain ⟨j, hj1, hj2, hj3⟩ := hj
    rcases hrl : runLadder enc kwOf limit (workDims w h k).1 (workDims w h k).2
        qualities last with ⟨fst, snd⟩
    cases fst with
    | some data =>
      exact ⟨k, data, by simp [searchFuel, hrl], by omega⟩
    | none =>
      have hsome : ∃ b, snd = some b := by
        have hs := runLadder_snd_isSome enc kwOf limit (workDims w h k).1
          (workDims w h k).2 qualities last hq
        rwa [hrl] at hs
      by_cases hfc : minSide2 (workDims w h k) ≤ minSide
      · obtain ⟨b, rfl⟩ := hsome
        exact ⟨k, b, by simp [searchFuel, hrl, hfc], by omega⟩
      · have hjk : j ≠ k := fun hh => hfc (hh ▸ hj3)
        obtain ⟨K, b, hs, hK⟩ := ih (k + 1) snd ⟨j, by omega, by omega, hj3⟩
        refine ⟨K, b, ?_, by omega⟩
        rw [← hs]
        simp [searchFuel, hrl, hfc]

/-- Whenever the search returns at scale index `K`, every earlier scale index
it passed through had its shorter side strictly above `min_side`. -/
lemma searchFuel_visited_aux (enc : Nat → Nat → SaveKwargs → Bytes)
    (kwOf : Nat → SaveKwargs) (limit minSide w h : Nat) (qualities : List Nat) :
    ∀ fuel k last K r,
      searchFuel enc kwOf limit minSide w h qualities fuel k last = some (K, r) →
      k ≤ K ∧ ∀ j, k ≤ j → j < K → minSide < minSide2 (workDims w h j) := by
  intro fuel
  induction fuel with
  | zero => intro k last K r hrun; simp [searchFuel] at hrun
  | succ fuel ih =>
    intro k last K r hrun
    rcases hrl : runLadder enc kwOf limit (workDims w h k).1 (workDims w h k).2
        qualities last with ⟨fst, snd⟩
    cases fst with
    | some data =>
      have hKk : k = K ∧ (some data : Option Bytes) = r := by
        have hrun2 := hrun
        simp [searchFuel, hrl] at hrun2
        exact ⟨hrun2.1, hrun2.2⟩
      obtain ⟨rfl, _⟩ := hKk
      exact ⟨le_refl k, fun j hj1 hj2 => absurd hj2 (by omega)⟩
    | none =>
      by_cases hfc : minSide2 (workDims w h k) ≤ minSide
      · have hKk : k = K := by
          have hrun2 := hrun
          simp [searchFuel, hrl, hfc] at hrun2
          exact hrun2.1
        subst hKk
        exact ⟨le_refl k, fun j hj1 hj2 => absurd hj2 (by omega)⟩
      · have hrec : searchFuel enc kwOf limit minSide w h qualities fuel (k + 1) snd
            = some (K, r) := by
          rw [← hrun]
          simp [searchFuel, hrl, hfc]
        obtain ⟨hK, hall⟩ := ih (k + 1) snd K r hrec
        refine ⟨by omega, ?_⟩
        intro j hj1 hj2
        rcases Nat.eq_or_lt_of_le hj1 with rfl | hlt
        · exact Nat.not_le.mp hfc
        · exact hall j (by omega) hj2

/-- Bernoulli bound: `d < (20/17)^n` once `n ≥ 6d`. -/
lemma nat_lt_ratio_pow (d n : Nat) (hn : 6 * d ≤ n) : (d : ℚ) < (20 / 17 : ℚ) ^ n := by
  have h0 : ((20 : ℚ) / 17) = 1 + 3 / 17 := by norm_num
  have h1 : (1 : ℚ) + (n : ℚ) * (3 / 17) ≤ (1 + 3 / 17) ^ n :=
    one_add_mul_le_pow (by norm_num) n
  have h2 : (6 * d : ℚ) ≤ (n : ℚ) := by exact_mod_cast hn
  have h3 : (0 : ℚ) ≤ (d : ℚ) := by positivity
  rw [h0]
  nlinarith [h1, h2, h3]

/-- Enough shrink steps drive a dimension down to the floor value 1. -/
lemma scaledDim_eq_one (d n : Nat) (hn : 6 * d ≤ n) : scaledDim d n = 1 := by
  have hlt : d * 17 ^ n < 20 ^ n := by
    have h1 : (d : ℚ) < (20 / 17 : ℚ) ^ n := nat_lt_ratio_pow d n hn
    have h2 : (0 : ℚ) < (17 : ℚ) ^ n := by positivity
    have h3 : ((20 : ℚ) / 17) ^ n * (17 : ℚ) ^ n = (20 : ℚ) ^ n := by
      rw [div_pow]
      field_simp
    have h4 : (d : ℚ) * (17 : ℚ) ^ n < (20 : ℚ) ^ n := by
      calc (d : ℚ) * (17 : ℚ) ^ n < (20 / 17 : ℚ) ^ n * (17 : ℚ) ^ n :=
            mul_lt_mul_of_pos_right h1 h2
        _ = (20 : ℚ) ^ n := h3
    exact_mod_cast h4
  unfold scaledDim
  rw [Nat.div_eq_of_lt hlt]
  rfl

/-- At scale index `6 * (w + h)` both working dimensions have collapsed to 1,
so the `min_side` floor has been reached. -/
lemma floor_reached (w h minSide : Nat) (hw : 1 ≤ w) (hm : 1 ≤ minSide) :
    minSide2 (workDims w h (6 * (w + h))) ≤ minSide := by
  have hk : ¬ (6 * (w + h) = 0) := by omega
  have h1 : scaledDim w (6 * (w + h)) = 1 := scaledDim_eq_one w _ (by omega)
  have h2 : scaledDim h (6 * (w + h)) = 1 := scaledDim_eq_one h _ (by omega)
  unfold workDims
  rw [if_neg hk]
  unfold minSide2
  simp [h1, h2, hm]

/-! Claims. -/

/-- C1: for every image and every `limit_bytes` at least the encoded size
achievable at the `min_side` floor (the first scale index `K` whose shorter
side is ≤ `min_side`) with the lowest quality of the ladder, the
size-constrained encoders `save_jpeg_under_limit` and `save_webp_under_limit`
return a byte buffer whose length is ≤ `limit_bytes`. -/
theorem c1_budget_convergence (enc : Nat → Nat → SaveKwargs → Bytes)
    (limit minSide w h K fuel : Nat) (qualities : List Nat)
    (exifBytes icc : Option Bytes)
    (hq : qualities ≠ []) (hfuel : K < fuel)
    (hfloor : minSide2 (workDims w h K) ≤ minSide)
    (hbefore : ∀ j, j < K → minSide < minSide2 (workDims w h j))
    (hfitJ : (enc (workDims w h K).1 (workDims w h K).2
      (jpegKwargs exifBytes icc (qualities.getLast hq))).length ≤ limit)
    (hfitW : (enc (workDims w h K).1 (workDims w h K).2
      (webpKwargs exifBytes icc (qualities.getLast hq))).length ≤ limit) :
    (∃ K2 b, save_jpeg_under_limit enc limit exifBytes icc minSide qualities w h fuel
        = some (K2, some b) ∧ b.length ≤ limit) ∧
    (∃ K2 b, save_webp_under_limit enc limit exifBytes icc minSide qualities w h fuel
        = some (K2, some b) ∧ b.length ≤ limit) := by
  constructor
  · exact searchFuel_budget_aux enc (jpegKwargs exifBytes icc) limit minSide w h
      qualities K hq hfitJ fuel 0 none (Nat.zero_le K) (by omega)
      (fun j _ hj => hbefore j hj)
  · exact searchFuel_budget_aux enc (webpKwargs exifBytes icc) limit minSide w h
      qualities K hq hfitW fuel 0 none (Nat.zero_le K) (by omega)
      (fun j _ hj => hbefore j hj)

/-- Witness for C1: a 1000×1000 image whose encoded length equals its working
width, with `min_side = 800` and `limit_bytes = 800`; the floor iteration is
`K = 2` (dimensions 722×722) and its encodings (722 bytes) fit the limit. -/
theorem c1_witness :
    (∃ K2 b, save_jpeg_under_limit widthEnc 800 none none 800 jpegQualitySteps 1000 1000 10
        = some (K2, some b) ∧ b.length ≤ 800) ∧
    (∃ K2 b, save_webp_under_limit widthEnc 800 none none 800 jpegQualitySteps 1000 1000 10
        = some (K2, some b) ∧ b.length ≤ 800) :=
  c1_budget_convergence widthEnc 800 800 1000 1000 2 10 jpegQualitySteps none none
    (by decide) (by decide) (by decide) (by decide) (by decide) (by decide)

/-- C2 counterexample: the claim "every working image that is encoded has its
shorter side ≥ min_side, except that the final floor check allows equality"
fails.  With a 1000×1000 image, `min_side = 800` and a limit nothing fits
(0), the search encodes the full ladder on the scale-index-2 working image —
whose shorter side is 722, strictly below 800 — and returns its last
encoding (`tagEnc` records the encoded working width: the returned buffer is
`[722]`). -/
theorem c2_counterexample :
    save_jpeg_under_limit tagEnc 0 none none 800 jpegQualitySteps 1000 1000 10
      = some (2, some [722]) ∧
    minSide2 (workDims 1000 1000 2) = 722 ∧ 722 < 800 :=
  ⟨by decide, by decide, by decide⟩

/-- C2 (amended): every working image encoded at a scale index before the
final one has its shorter side strictly greater than `min_side`; only the
final iteration's working image may sit at or below `min_side` (the shrink
step is applied before the floor check, so it can land strictly below, not
just at equality). -/
theorem c2_floor_overshoot (enc : Nat → Nat → SaveKwargs → Bytes)
    (kwOf : Nat → SaveKwargs) (limit minSide w h fuel K : Nat)
    (qualities : List Nat) (r : Option Bytes)
    (hrun : searchFuel enc kwOf limit minSide w h qualities fuel 0 none = some (K, r)) :
    ∀ j, j < K → minSide < minSide2 (workDims w h j) := by
  intro j hj
  exact (searchFuel_visited_aux enc kwOf limit minSide w h qualities
    fuel 0 none K r hrun).2 j (Nat.zero_le j) hj

/-- Witness for the amended C2: in the concrete run of `c2_counterexample`
the scale-index-1 working image (before the final index 2) has shorter side
850 > 800. -/
theorem c2_witness : 800 < minSide2 (workDims 1000 1000 1) :=
  c2_floor_overshoot tagEnc (jpegKwargs none none) 0 800 1000 1000 10 2
    jpegQualitySteps (some [722]) (by decide) 1 (by decide)

/-- C3 counterexample: the claimed working dimensions
`max(1, round(original_dim * scale))` (round-to-nearest) disagree with the
code's `max(1, int(original_dim * scale))` (truncation): at `original_dim =
7` and one shrink step (`scale = 0.85`), `7 * 0.85 = 5.95` truncates to 5
while rounding to nearest gives 6. -/
theorem c3_counterexample :
    scaledDim 7 1 = 5 ∧ specRoundedDim 7 1 = 6 ∧ workDims 7 7 1 ≠ (6, 6) := by
  refine ⟨by decide, ?_, by decide⟩
  have hval : ((7 : Nat) : ℚ) * scaleQ 1 = 119 / 20 := by
    unfold scaleQ
    norm_num
  have hround : round ((119 : ℚ) / 20) = 6 := by
    rw [round_eq]
    norm_num
  unfold specRoundedDim
  rw [hval, hround]
  rfl

/-- C3 (amended): when `scale < 1.0` (scale index `k ≠ 0`), the working
image's dimensions are `max(1, int(original_dim * scale))` per axis, where
`int` truncates — the floor of the nonnegative product — rather than
rounding to nearest. -/
theorem c3_truncated_dims (w h k : Nat) (hk : k ≠ 0) :
    workDims w h k =
      (max 1 (Nat.floor ((w : ℚ) * scaleQ k)), max 1 (Nat.floor ((h : ℚ) * scaleQ k))) := by
  unfold workDims
  rw [if_neg hk, scaledDim_eq_floor, scaledDim_eq_floor]

/-- Witness for the amended C3 at `original_dim = 7`, one shrink step. -/
theorem c3_witness :
    workDims 7 7 1 =
      (max 1 (Nat.floor (((7 : Nat) : ℚ) * scaleQ 1)),
       max 1 (Nat.floor (((7 : Nat) : ℚ) * scaleQ 1))) :=
  c3_truncated_dims 7 7 1 (by decide)

/-- C4: under strategy auto, `normalize_orientation` rotates the pixels
exactly when the orientation tag is in {3,4}, or the tag is in {5,6,7,8} and
the pre-rotation image satisfies width ≥ height; otherwise (tag 1 or 2, any
other tag value, or tags 5-8 on a portrait image) the pixels pass through
unrotated. -/
theorem c4_auto_rotation (transpose : Img → Nat → Img) (img : Img)
    (exifRes : Option ExifMap) :
    (normalize_orientation transpose img exifRes "auto").1 =
      if (origTag exifRes = 3 ∨ origTag exifRes = 4) ∨
         ((origTag exifRes = 5 ∨ origTag exifRes = 6 ∨ origTag exifRes = 7 ∨
           origTag exifRes = 8) ∧ img.height ≤ img.width)
      then transpose img (origTag exifRes) else img := by
  have hb : autoNeedRotate (origTag exifRes) img.width img.height = true ↔
      ((origTag exifRes = 3 ∨ origTag exifRes = 4) ∨
       ((origTag exifRes = 5 ∨ origTag exifRes = 6 ∨ origTag exifRes = 7 ∨
         origTag exifRes = 8) ∧ img.height ≤ img.width)) := by
    unfold autoNeedRotate
    split_ifs with h1 h2
    · simp [h1]
    · simp [h1, h2]
    · simp [h1, h2]
  by_cases hc : (origTag exifRes = 3 ∨ origTag exifRes = 4) ∨
      ((origTag exifRes = 5 ∨ origTag exifRes = 6 ∨ origTag exifRes = 7 ∨
        origTag exifRes = 8) ∧ img.height ≤ img.width)
  · rw [if_pos hc]
    have hbt : autoNeedRotate (origTag exifRes) img.width img.height = true := hb.mpr hc
    cases exifRes with
    | none => simp [normalize_orientation, hbt]
    | some e =>
      by_cases he : e.isEmpty <;> simp [normalize_orientation, hbt, he]
  · rw [if_neg hc]
    have hbf : autoNeedRotate (origTag exifRes) img.width img.height = false := by
      cases hx : autoNeedRotate (origTag exifRes) img.width img.height
      · rfl
      · exact absurd (hb.mp hx) hc
    cases exifRes with
    | none => simp [normalize_orientation, hbf]
    | some e =>
      by_cases he : e.isEmpty <;> simp [normalize_orientation, hbf, he]

/-- C5: for every strategy in {auto, force, strip}, if the input image has
metadata (a present, non-empty EXIF map) then `normalize_orientation`
returns metadata whose orientation field (tag 274) equals 1; if no metadata
exists (absent or empty), it returns none. -/
theorem c5_orientation_rewritten (transpose : Img → Nat → Img) (img : Img)
    (exifRes : Option ExifMap) (strategy : String)
    (hs : strategy = "auto" ∨ strategy = "force" ∨ strategy = "strip") :
    (∀ e, exifRes = some e → e ≠ [] →
      ∃ e2, (normalize_orientation transpose img exifRes strategy).2 = some e2 ∧
        List.lookup 274 e2 = some 1) ∧
    ((exifRes = none ∨ exifRes = some ([] : ExifMap)) →
      (normalize_orientation transpose img exifRes strategy).2 = none) := by
  have key : (normalize_orientation transpose img exifRes strategy).2 =
      (match exifRes with
       | some e => if e.isEmpty then none else some (exifSet e 274 1)
       | none => none) := by
    rcases hs with rfl | rfl | rfl <;>
      cases exifRes with
      | none => simp [normalize_orientation]
      | some e =>
        by_cases he : e.isEmpty <;> simp [normalize_orientation, he]
  constructor
  · intro e he hne
    subst he
    have hem : e.isEmpty = false := by
      cases e with
      | nil => exact absurd rfl hne
      | cons a t => rfl
    refine ⟨exifSet e 274 1, ?_, lookup_exifSet e 274 1⟩
    rw [key]
    simp [hem]
  · intro hnone
    rcases hnone with rfl | rfl
    · rw [key]
    · rw [key]
      rfl

/-- Witness for C5: strategy force on an EXIF map carrying orientation 6
yields metadata with orientation 1; and the none-metadata branch holds. -/
theorem c5_witness :
    (∀ e, (some [(274, 6), (306, 9)] : Option ExifMap) = some e → e ≠ [] →
      ∃ e2, (normalize_orientation idTranspose cImg
        (some [(274, 6), (306, 9)]) "force").2 = some e2 ∧
        List.lookup 274 e2 = some 1) ∧
    (((some [(274, 6), (306, 9)] : Option ExifMap) = none ∨
      (some [(274, 6), (306, 9)] : Option ExifMap) = some ([] : ExifMap)) →
      (normalize_orientation idTranspose cImg
        (some [(274, 6), (306, 9)]) "force").2 = none) :=
  c5_orientation_rewritten idTranspose cImg (some [(274, 6), (306, 9)]) "force"
    (Or.inr (Or.inl rfl))

/-- C6: at each scale the quality ladder is probed in its (strictly
descending) order and the search returns at the first quality whose encoded
size fits the limit, before any further shrinking: the one-step search
returns at the current scale index `k`, and the returned buffer is the
encoding at the highest quality on the ladder that fits at that scale. -/
theorem c6_quality_first_fit (enc : Nat → Nat → SaveKwargs → Bytes)
    (kwOf : Nat → SaveKwargs) (limit minSide w h fuel k : Nat)
    (qualities : List Nat) (last : Option Bytes) (d : Bytes)
    (hp : List.Pairwise (fun a b => b < a) qualities)
    (hfst : (runLadder enc kwOf limit (workDims w h k).1 (workDims w h k).2
      qualities last).1 = some d) :
    searchFuel enc kwOf limit minSide w h qualities (fuel + 1) k last
      = some (k, some d) ∧
    ∃ q, q ∈ qualities ∧ d = enc (workDims w h k).1 (workDims w h k).2 (kwOf q) ∧
      d.length ≤ limit ∧
      ∀ q2, q2 ∈ qualities →
        (enc (workDims w h k).1 (workDims w h k).2 (kwOf q2)).length ≤ limit →
        q2 ≤ q := by
  constructor
  · rcases hrl : runLadder enc kwOf limit (workDims w h k).1 (workDims w h k).2
        qualities last with ⟨fst, snd⟩
    rw [hrl] at hfst
    simp only [] at hfst
    subst hfst
    simp [searchFuel, hrl]
  · exact runLadder_first_fit enc kwOf limit (workDims w h k).1 (workDims w h k).2
      qualities last d hp hfst

/-- Witness for C6: an encoder whose output length equals the quality, with
limit 80 on the JPEG ladder — qualities 92 and 85 are probed and fail, and
the search returns at quality 80, the highest that fits, without shrinking. -/
theorem c6_witness :
    searchFuel qualEnc (jpegKwargs none none) 80 800 100 100 jpegQualitySteps
      (4 + 1) 0 none = some (0, some (List.replicate 80 0)) ∧
    ∃ q, q ∈ jpegQualitySteps ∧
      List.replicate 80 0 = qualEnc (workDims 100 100 0).1 (workDims 100 100 0).2
        (jpegKwargs none none q) ∧
      (List.replicate 80 (0 : Nat)).length ≤ 80 ∧
      ∀ q2, q2 ∈ jpegQualitySteps →
        (qualEnc (workDims 100 100 0).1 (workDims 100 100 0).2
          (jpegKwargs none none q2)).length ≤ 80 →
        q2 ≤ q :=
  c6_quality_first_fit qualEnc (jpegKwargs none none) 80 800 100 100 4 0
    jpegQualitySteps none (List.replicate 80 0) (by decide) (by decide)

/-- C7: for every image with positive dimensions and every `min_side ≥ 1`,
the quality/scale search terminates within a bounded number of shrink
iterations — fuel `6*(w+h)+1` always suffices and the returned scale index
is at most `6*(w+h)` — and both encoders return an actual byte buffer (the
floor-return branch never yields the `None`-initialised `last_attempt`,
because the non-empty ladder is fully encoded before the floor check). -/
theorem c7_search_terminates (enc : Nat → Nat → SaveKwargs → Bytes)
    (limit minSide w h : Nat) (qualities : List Nat) (exifBytes icc : Option Bytes)
    (hw : 1 ≤ w) (hh : 1 ≤ h) (hm : 1 ≤ minSide) (hq : qualities ≠ []) :
    (∃ K b, save_jpeg_under_limit enc limit exifBytes icc minSide qualities w h
        (6 * (w + h) + 1) = some (K, some b) ∧ K ≤ 6 * (w + h)) ∧
    (∃ K b, save_webp_under_limit enc limit exifBytes icc minSide qualities w h
        (6 * (w + h) + 1) = some (K, some b) ∧ K ≤ 6 * (w + h)) := by
  have hex : ∃ j, 0 ≤ j ∧ j < 0 + (6 * (w + h) + 1) ∧
      minSide2 (workDims w h j) ≤ minSide :=
    ⟨6 * (w + h), Nat.zero_le _, by omega, floor_reached w h minSide hw hm⟩
  constructor
  · obtain ⟨K, b, hs, hK⟩ := searchFuel_total_aux enc (jpegKwargs exifBytes icc)
      limit minSide w h qualities hq (6 * (w + h) + 1) 0 none hex
    exact ⟨K, b, hs, by omega⟩
  · obtain ⟨K, b, hs, hK⟩ := searchFuel_total_aux enc (webpKwargs exifBytes icc)
      limit minSide w h qualities hq (6 * (w + h) + 1) 0 none hex
    exact ⟨K, b, hs, by omega⟩

/-- Witness for C7: a 1×1 image with `min_side = 1` and an unreachable limit
0 still yields a returned buffer within the fuel bound. -/
theorem c7_witness :
    (∃ K b, save_jpeg_under_limit tagEnc 0 none none 1 jpegQualitySteps 1 1
        (6 * (1 + 1) + 1) = some (K, some b) ∧ K ≤ 6 * (1 + 1)) ∧
    (∃ K b, save_webp_under_limit tagEnc 0 none none 1 jpegQualitySteps 1 1
        (6 * (1 + 1) + 1) = some (K, some b) ∧ K ≤ 6 * (1 + 1)) :=
  c7_search_terminates tagEnc 0 1 1 1 jpegQualitySteps none none
    (by decide) (by decide) (by decide) (by decide)

/-- Every successful return of the `compress_one` body carries the success
flag `True`. -/
lemma compress_one_body_ok_true (limit : Nat) (w : PipelineWorld)
    (r : Bool × String × FileAction)
    (h : compress_one_body limit w = Except.ok r) : r.1 = true := by
  unfold compress_one_body at h
  split at h
  · exact Except.noConfusion h
  · split at h
    · split at h
      · exact Except.noConfusion h
      · cases h
        rfl
    · split at h
      · exact Except.noConfusion h
      · split at h
        · split at h
          · exact Except.noConfusion h
          · split at h
            · exact Except.noConfusion h
            · cases h
              rfl
        · split at h
          · split at h
            · exact Except.noConfusion h
            · split at h
              · exact Except.noConfusion h
              · cases h
                rfl
          · split at h
            · exact Except.noConfusion h
            · split at h
              · exact Except.noConfusion h
              · cases h
                rfl

/-- C8: for every source file whose on-disk size is ≤ `limit_bytes` (and a
copy that goes through), `compress_one` takes the fast path: it reports
success with the skip message, performs only the verbatim copy — output
bytes identical to the source bytes, original extension preserved —
regardless of image format or metadata. -/
theorem c8_fast_path (limit : Nat) (w : PipelineWorld) (n : Nat)
    (hstat : w.statRes = Except.ok n) (hn : n ≤ limit)
    (hcopy : w.copyRes = Except.ok ()) :
    compress_one limit w = (true, "SKIP (<= limit)", some FileAction.copyVerbatim) ∧
    outputOf w FileAction.copyVerbatim = (w.origBytes, w.ext) := by
  have hbody : compress_one_body limit w
      = Except.ok (true, "SKIP (<= limit)", FileAction.copyVerbatim) := by
    unfold compress_one_body
    rw [hstat]
    simp only []
    rw [if_pos hn, hcopy]
  constructor
  · unfold compress_one
    rw [hbody]
  · rfl

/-- Witness for C8: a concrete world with a 100-byte source file under a
1000-byte limit is copied verbatim. -/
theorem c8_witness :
    compress_one 1000 cWorld = (true, "SKIP (<= limit)", some FileAction.copyVerbatim) ∧
    outputOf cWorld FileAction.copyVerbatim = (cWorld.origBytes, cWorld.ext) :=
  c8_fast_path 1000 cWorld 100 rfl (by decide) rfl

/-- C9: `compress_one` never propagates an exception: for every input world
it returns a structured (success, message) pair — the pair from the body on
success (always flagged `True`), or `(False, "FAIL: " ++ diagnostic)` when
any decode, encode, or I/O step failed — so one file's failure cannot
terminate the batch. -/
theorem c9_no_exception (limit : Nat) (w : PipelineWorld) :
    (∃ r, compress_one_body limit w = Except.ok r ∧
      compress_one limit w = (r.1, r.2.1, some r.2.2) ∧ r.1 = true) ∨
    (∃ e, compress_one_body limit w = Except.error e ∧
      compress_one limit w = (false, "FAIL: " ++ e, none)) := by
  cases hb : compress_one_body limit w with
  | ok r =>
    left
    refine ⟨r, rfl, ?_, compress_one_body_ok_true limit w r hb⟩
    unfold compress_one
    rw [hb]
  | error e =>
    right
    refine ⟨e, rfl, ?_⟩
    unfold compress_one
    rw [hb]

/-- C10: the alpha-preserving WebP encoder embeds the provided EXIF bytes
and ICC profile (when present, i.e. non-empty — Python truthiness) in every
encoding attempt: every save call of `save_webp_under_limit` receives the
kwargs built by `webpKwargs`, whose `exif` and `icc_profile` fields carry the
provided buffers, at every quality and scale. -/
theorem c10_webp_embeds_metadata (enc : Nat → Nat → SaveKwargs → Bytes)
    (limit minSide w h fuel q : Nat) (eb ic : Bytes)
    (heb : eb ≠ []) (hic : ic ≠ []) :
    (webpKwargs (some eb) (some ic) q).exif = some eb ∧
    (webpKwargs (some eb) (some ic) q).icc_profile = some ic ∧
    save_webp_under_limit enc limit (some eb) (some ic) minSide webpQualitySteps
        w h fuel
      = searchFuel enc (webpKwargs (some eb) (some ic)) limit minSide w h
          webpQualitySteps fuel 0 none := by
  have hebe : eb.isEmpty = false := by
    cases eb with
    | nil => exact absurd rfl heb
    | cons a t => rfl
  have hice : ic.isEmpty = false := by
    cases ic with
    | nil => exact absurd rfl hic
    | cons a t => rfl
  refine ⟨?_, ?_, rfl⟩
  · simp [webpKwargs, pyTruthy, hebe]
  · simp [webpKwargs, pyTruthy, hice]

/-- Witness for C10 at concrete EXIF bytes `[1]`, ICC bytes `[2]`,
quality 95. -/
theorem c10_witness :
    (webpKwargs (some [1]) (some [2]) 95).exif = some [1] ∧
    (webpKwargs (some [1]) (some [2]) 95).icc_profile = some [2] ∧
    save_webp_under_limit tagEnc 0 (some [1]) (some [2]) 1 webpQualitySteps 1 1 3
      = searchFuel tagEnc (webpKwargs (some [1]) (some [2])) 0 1 1 1
          webpQualitySteps 3 0 none :=
  c10_webp_embeds_metadata tagEnc 0 1 1 1 3 95 [1] [2] (by decide) (by decide)

end CompressGallery
